import Mathlib

/-!
Verification development for `src/process_documents.py`, the invoice
batch-renamer.  Pure string helpers (`sanitize_filename`,
`parse_date_to_yyyymmdd`, `generate_new_filename`, pathlib's `suffix`)
are translated directly.  The filesystem is an association list from
paths to contents; the Gemini extraction call, per-file exceptions and
`KeyboardInterrupt` are modelled by an explicit per-file outcome
(`FileEvent`), and folder validation / enumeration by a `FolderState`
record carrying the oracle answers of `Path.exists`, `Path.is_dir`,
and whether `iterdir` raises `PermissionError`.
-/

/-- Characters deleted by `sanitize_filename`, from the source regex
class in `re.sub(r'[<>:"/\\|?*]', '', text)`. -/
def is_invalid_char (c : Char) : Bool :=
  ['<', '>', ':', '\"', '/', '\\', '|', '?', '*'].contains c

/-- Whitespace as matched by Python's regex class `\s` in Unicode mode
(the set of characters for which `str.isspace()` holds). -/
def isPySpace (c : Char) : Bool :=
  [' ', '\t', '\n', '\x0b', '\x0c', '\r',
   '\x1c', '\x1d', '\x1e', '\x1f', '\x85', '\xa0',
   ' ', ' ', ' ', ' ', ' ', ' ', ' ',
   ' ', ' ', ' ', ' ', ' ',
   ' ', ' ', ' ', ' ', '　'].contains c

/-- Translation of `re.sub(r'\s+', '_', s)`: every maximal run of
whitespace becomes a single underscore.  The boolean flag records
whether the previous character was part of a whitespace run. -/
def collapseWs : Bool → List Char → List Char
  | _, [] => []
  | inRun, c :: cs =>
    if isPySpace c then
      (if inRun then collapseWs true cs else '_' :: collapseWs true cs)
    else c :: collapseWs false cs

/-- The character set of Python's `str.strip(' .')`. -/
def stripChar (c : Char) : Bool := c == ' ' || c == '.'

/-- Translation of `s.strip(' .')`: remove leading and trailing
spaces and dots. -/
def pyStrip (cs : List Char) : List Char :=
  ((cs.dropWhile stripChar).reverse.dropWhile stripChar).reverse

/-- `InvoiceProcessor.sanitize_filename`: delete illegal filename
characters, collapse whitespace runs to `_`, strip `' '` and `'.'`
from both ends. -/
def sanitize_filename (text : String) : String :=
  String.mk (pyStrip (collapseWs false
    (text.toList.filter (fun c => !is_invalid_char c))))

/-- Numeric value of an ASCII digit string; used only by the
spec-side strict-format predicate below. -/
def digitsVal (cs : List Char) : Nat :=
  cs.foldl (fun a c => a * 10 + (c.toNat - 48)) 0

/-- Gregorian leap-year rule used by `datetime`. -/
def is_leap (y : Nat) : Bool :=
  y % 4 == 0 && (y % 100 != 0 || y % 400 == 0)

/-- Days in a month, as validated by the `datetime` constructor. -/
def days_in_month (y m : Nat) : Nat :=
  if m == 2 then (if is_leap y then 29 else 28)
  else if m == 4 || m == 6 || m == 9 || m == 11 then 30
  else 31

/-- Start codepoints of the runs of ten consecutive Unicode decimal
digits (category `Nd`, digit values 0-9 in order), as in the Unicode
data of the CPython build the program runs under; Python's regex
classes `\d` and `\D` and `int()` are defined over exactly these
characters. -/
def ndRangeStarts : List Nat :=
  [48, 1632, 1776, 1984, 2406, 2534, 2662, 2790,
   2918, 3046, 3174, 3302, 3430, 3558, 3664, 3792,
   3872, 4160, 4240, 6112, 6160, 6470, 6608, 6784,
   6800, 6992, 7088, 7232, 7248, 42528, 43216, 43264,
   43472, 43504, 43600, 44016, 65296, 66720, 68912, 69734,
   69872, 69942, 70096, 70384, 70736, 70864, 71248, 71360,
   71472, 71904, 72016, 72784, 73040, 73120, 92768, 92864,
   93008, 120782, 120792, 120802, 120812, 120822, 123200, 123632,
   125264, 130032]

/-- The decade run a character belongs to, when it is a Unicode
decimal digit. -/
def pyDigitBase (c : Char) : Option Nat :=
  ndRangeStarts.find? (fun b => b ≤ c.toNat && c.toNat ≤ b + 9)

/-- Python's `\d`: membership in Unicode category `Nd`. -/
def isPyDigit (c : Char) : Bool := (pyDigitBase c).isSome

/-- The digit value of a Unicode decimal digit, as used by `int()`
(0 for non-digits, which never reach it). -/
def pyDigitVal (c : Char) : Nat :=
  match pyDigitBase c with
  | some b => c.toNat - b
  | none => 0

/-- The two-character alternatives of the `%d` group in CPython's
`_strptime` regex, `3[01]|[12]\d|0[1-9]`, with the value `int` gives
the match.  The bracket classes are ASCII codepoint ranges
(48 = `0`, 49 = `1`, 50 = `2`, 51 = `3`, 57 = `9`); only `\d` also
accepts non-ASCII Unicode decimal digits. -/
def matchDay2 (c1 c2 : Char) : Option Nat :=
  if c1.toNat = 51 ∧ 48 ≤ c2.toNat ∧ c2.toNat ≤ 49 then
    some (30 + (c2.toNat - 48))
  else if (c1.toNat = 49 ∨ c1.toNat = 50) ∧ isPyDigit c2 = true then
    some ((c1.toNat - 48) * 10 + pyDigitVal c2)
  else if c1.toNat = 48 ∧ 49 ≤ c2.toNat ∧ c2.toNat ≤ 57 then
    some (c2.toNat - 48)
  else none

/-- The two-character alternatives of the `%m` group,
`1[0-2]|0[1-9]` - ASCII only, the month pattern contains no `\d`. -/
def matchMonth2 (c1 c2 : Char) : Option Nat :=
  if c1.toNat = 49 ∧ 48 ≤ c2.toNat ∧ c2.toNat ≤ 50 then
    some (10 + (c2.toNat - 48))
  else if c1.toNat = 48 ∧ 49 ≤ c2.toNat ∧ c2.toNat ≤ 57 then
    some (c2.toNat - 48)
  else none

/-- The `%Y` group `\d\d\d\d` together with `strptime`'s
whole-string check: exactly four Unicode decimal digits and then the
end of the input. -/
def matchYearEnd (cs : List Char) : Option Nat :=
  match cs with
  | [a, b, c, d] =>
    if isPyDigit a = true ∧ isPyDigit b = true ∧ isPyDigit c = true ∧ isPyDigit d = true then
      some (pyDigitVal a * 1000 + pyDigitVal b * 100 + pyDigitVal c * 10 + pyDigitVal d)
    else none
  | _ => none

/-- The literal dash of the format followed by the year group. -/
def matchDashYear (cs : List Char) : Option Nat :=
  if cs.head? = some '-' then matchYearEnd cs.tail else none

/-- A two-character month match continued by `-` and the year. -/
def monthTwoThenRest (c1 c2 : Char) (rest : List Char) : Option (Nat × Nat) :=
  match matchMonth2 c1 c2 with
  | some m =>
    match matchDashYear rest with
    | some y => some (m, y)
    | none => none
  | none => none

/-- The one-character month alternative `[1-9]` continued by `-` and
the year. -/
def monthOneThenRest (c1 : Char) (rest : List Char) : Option (Nat × Nat) :=
  if 49 ≤ c1.toNat ∧ c1.toNat ≤ 57 then
    match matchDashYear rest with
    | some y => some (c1.toNat - 48, y)
    | none => none
  else none

/-- First alternative when it matches, otherwise the second: the
regex engine's ordered alternation with backtracking into the
continuation. -/
def optionOrElse {α : Type} (a b : Option α) : Option α :=
  match a with
  | some r => some r
  | none => b

/-- The month group and everything after it: the two-character
alternatives are tried first; if they or their continuation fail, the
engine backtracks to the one-character alternative on the same
input. -/
def matchMonthDashYear (cs : List Char) : Option (Nat × Nat) :=
  match cs with
  | [] => none
  | [c1] => monthOneThenRest c1 []
  | c1 :: c2 :: rest =>
    optionOrElse (monthTwoThenRest c1 c2 rest) (monthOneThenRest c1 (c2 :: rest))

/-- The first literal dash and everything after it. -/
def matchDashMonthDashYear (cs : List Char) : Option (Nat × Nat) :=
  if cs.head? = some '-' then matchMonthDashYear cs.tail else none

/-- A two-character day match continued by the rest of the format. -/
def dayTwoThenRest (c1 c2 : Char) (rest : List Char) : Option (Nat × Nat × Nat) :=
  match matchDay2 c1 c2 with
  | some d =>
    match matchDashMonthDashYear rest with
    | some (m, y) => some (d, m, y)
    | none => none
  | none => none

/-- The one-character day alternative `[1-9]` continued by the rest
of the format. -/
def dayOneThenRest (c1 : Char) (rest : List Char) : Option (Nat × Nat × Nat) :=
  if 49 ≤ c1.toNat ∧ c1.toNat ≤ 57 then
    match matchDashMonthDashYear rest with
    | some (m, y) => some (c1.toNat - 48, m, y)
    | none => none
  else none

/-- The full `%d-%m-%Y` regex of CPython's `_strptime`,
`(?P<d>3[01]|[12]\d|0[1-9]|[1-9])\-(?P<m>1[0-2]|0[1-9]|[1-9])\-(?P<Y>\d\d\d\d)`,
anchored at both ends, returning the `int` values of the groups. -/
def pyDateParse (cs : List Char) : Option (Nat × Nat × Nat) :=
  match cs with
  | [] => none
  | [c1] => dayOneThenRest c1 []
  | c1 :: c2 :: rest =>
    optionOrElse (dayTwoThenRest c1 c2 rest) (dayOneThenRest c1 (c2 :: rest))

/-- Embedding of `datetime.strptime(s, "%d-%m-%Y")`: the regex match
followed by the `datetime(year, month, day)` constructor's range
checks (`MINYEAR = 1`, the day within the month; the regex already
bounds the month by 12 and the year by 9999). -/
def strptime_d_m_Y (s : String) : Option (Nat × Nat × Nat) :=
  match pyDateParse s.toList with
  | some (d, m, y) =>
    if 1 ≤ y ∧ 1 ≤ d ∧ d ≤ days_in_month y m then some (d, m, y) else none
  | none => none

/-- Fuel-driven decimal rendering of a natural number (most
significant digit first); the fuel is always sufficient when called
from `natChars`. -/
def natCharsGo : Nat → Nat → List Char → List Char
  | 0, _, acc => acc
  | fuel + 1, n, acc =>
    if n < 10 then Char.ofNat (48 + n) :: acc
    else natCharsGo fuel (n / 10) (Char.ofNat (48 + n % 10) :: acc)

/-- Decimal digits of `n`, as printed by glibc `strftime` for `%Y`
(no zero padding). -/
def natChars (n : Nat) : List Char := natCharsGo (n + 1) n []

/-- Two-digit zero-padded field, as printed by `strftime` for `%m`
and `%d`. -/
def pad2 (n : Nat) : List Char :=
  if n < 10 then ['0', Char.ofNat (48 + n)] else natChars n

/-- Embedding of `date_obj.strftime("%Y%m%d")` on Linux/glibc: the
year in decimal (unpadded), then zero-padded month and day. -/
def strftime_Y_m_d (y m d : Nat) : String :=
  String.mk (natChars y ++ pad2 m ++ pad2 d)

/-- `InvoiceProcessor.parse_date_to_yyyymmdd`: try
`strptime(date_str, "%d-%m-%Y")` and format as `%Y%m%d`; on
`ValueError` fall back to `re.sub(r'\D', '', date_str)`, which keeps
exactly the Unicode decimal digit characters. -/
def parse_date_to_yyyymmdd (date_str : String) : String :=
  match strptime_d_m_Y date_str with
  | some (d, m, y) => strftime_Y_m_d y m d
  | none => String.mk (date_str.toList.filter isPyDigit)

/-- Index of the last occurrence of `c`, as Python's `str.rfind`. -/
def pyRfind : List Char → Char → Option Nat
  | [], _ => none
  | a :: as, c =>
    match pyRfind as c with
    | some i => some (i + 1)
    | none => if a == c then some 0 else none

/-- `pathlib.PurePath.suffix` of a single path component: the part
from the last dot on, empty when the dot is absent, leading, or the
final character. -/
def pySuffix (name : String) : String :=
  let cs := name.toList
  match pyRfind cs '.' with
  | some i => if 0 < i ∧ i < cs.length - 1 then String.mk (cs.drop i) else ""
  | none => ""

/-- ASCII lowering, as `str.lower()` acts on the extensions compared
against `'.pdf'`. -/
def pyToLower (s : String) : String :=
  String.mk (s.toList.map Char.toLower)

/-- The pydantic `Invoice` record: the three extracted fields. -/
structure Invoice where
  company_name : String
  description : String
  issue_date : String

/-- `InvoiceProcessor.generate_new_filename`: sanitize the issuer and
category, normalize the date, and append the original extension. -/
def generate_new_filename (invoice : Invoice) (original_name : String) : String :=
  let company_name := sanitize_filename invoice.company_name
  let description := sanitize_filename invoice.description
  let issue_date := parse_date_to_yyyymmdd invoice.issue_date
  let file_extension := pySuffix original_name
  company_name ++ "_" ++ description ++ "_" ++ issue_date ++ file_extension

/-- Joining a directory with a child name, as `parent / name`. -/
def path_join (dir name : String) : String := dir ++ "/" ++ name

/-- `InvoiceProcessor.rename_file` over a filesystem modelled as an
association list from absolute paths to file contents.  If the
destination exists the function returns the filesystem unchanged with
`false`; otherwise `Path.rename` either succeeds (moving the entry)
or raises an OS error - the oracle `os_rename_ok` - which is caught
and reported as `false`.  A missing source makes `rename` raise
`FileNotFoundError`, also caught. -/
def rename_file (fs : List (String × String))
    (parent_dir original_name new_filename : String)
    (os_rename_ok : Bool) : List (String × String) × Bool :=
  let new_path := path_join parent_dir new_filename
  if (fs.lookup new_path).isSome then (fs, false)
  else
    match fs.lookup (path_join parent_dir original_name) with
    | none => (fs, false)
    | some content =>
      if os_rename_ok then
        (fs.filter (fun e => e.1 != path_join parent_dir original_name)
          ++ [(new_path, content)], true)
      else (fs, false)

/-- Observable outcome of `InvoiceProcessor.process_file` on one
file: returned `True` (extraction and rename both succeeded),
returned `False` (extraction or rename failed), raised an unexpected
exception (caught by the `except Exception` arm), or raised
`KeyboardInterrupt` (caught by the `except KeyboardInterrupt` arm). -/
inductive FileEvent where
  | success : FileEvent
  | failure : FileEvent
  | raised : FileEvent
  | interrupt : FileEvent
deriving DecidableEq

/-- One directory entry: its name, whether it is a regular file, and
the pipeline outcome oracle for it. -/
structure Entry where
  name : String
  isFile : Bool
  event : FileEvent

/-- Folder-level oracle answers: `Path.exists`, `Path.is_dir`,
whether `iterdir` raises `PermissionError`, and the entries. -/
structure FolderState where
  fs_exists : Bool
  is_dir : Bool
  perm_denied : Bool
  entries : List Entry

/-- `InvoiceProcessor.validate_folder`: the folder must exist and be
a directory. -/
def validate_folder (st : FolderState) : Bool :=
  st.fs_exists && st.is_dir

/-- `InvoiceProcessor.get_pdf_files`: list the entries that are
regular files with extension `.pdf` case-insensitively; a
`PermissionError` from `iterdir` is caught and yields `[]`. -/
def get_pdf_files (st : FolderState) : List Entry :=
  if st.perm_denied then []
  else st.entries.filter (fun e => e.isFile && pyToLower (pySuffix e.name) == ".pdf")

/-- The `for pdf_file in pdf_files` loop of
`InvoiceProcessor.process_all_files`: count successes, continue after
`False` results and unexpected exceptions, break on
`KeyboardInterrupt`.  Returns the success count and the list of files
actually processed (the interrupted file included, since the
interrupt was observed while handling it). -/
def process_loop : List FileEvent → Nat × List FileEvent
  | [] => (0, [])
  | e :: rest =>
    match e with
    | .interrupt => (0, [FileEvent.interrupt])
    | .success =>
      ((process_loop rest).1 + 1, FileEvent.success :: (process_loop rest).2)
    | .failure =>
      ((process_loop rest).1, FileEvent.failure :: (process_loop rest).2)
    | .raised =>
      ((process_loop rest).1, FileEvent.raised :: (process_loop rest).2)

/-- `InvoiceProcessor.process_all_files`: validate the folder, list
the PDF files, run the loop; returns `(successful_count, total)`. -/
def process_all_files (st : FolderState) : Nat × Nat :=
  if validate_folder st then
    let pdf_files := get_pdf_files st
    if pdf_files.isEmpty then (0, 0)
    else ((process_loop (pdf_files.map Entry.event)).1, pdf_files.length)
  else (0, 0)

/-- The files actually processed by `process_all_files` (second
component of the loop), empty when validation fails or nothing is
found. -/
def processed_trace (st : FolderState) : List FileEvent :=
  if validate_folder st then
    let pdf_files := get_pdf_files st
    if pdf_files.isEmpty then []
    else (process_loop (pdf_files.map Entry.event)).2
  else []

/-- The files discovered by a run: the result of `get_pdf_files`,
which is only reached when folder validation passes. -/
def discovered (st : FolderState) : List Entry :=
  if validate_folder st then get_pdf_files st else []

/-- The `main` exit code: `1` when the total is zero, `0` when every
file succeeded, `1` otherwise. -/
def main_exit (st : FolderState) : Nat :=
  let result := process_all_files st
  if result.2 = 0 then 1
  else if result.1 = result.2 then 0 else 1

/-- Modelled from the spec: a string exactly in the strict fixed
two-digit-day, two-digit-month, four-digit-year day-month-year format
denoting a valid calendar date.  Used only to compare the spec's
claim about `parse_date_to_yyyymmdd` with the code. -/
def strict_ddmmyyyy_spec (s : String) : Bool :=
  match s.toList with
  | [d1, d2, h1, m1, m2, h2, y1, y2, y3, y4] =>
    h1 == '-' && h2 == '-'
      && [d1, d2, m1, m2, y1, y2, y3, y4].all Char.isDigit
      && (let d := digitsVal [d1, d2]
          let m := digitsVal [m1, m2]
          let y := digitsVal [y1, y2, y3, y4]
          decide (1 ≤ y ∧ 1 ≤ m ∧ m ≤ 12 ∧ 1 ≤ d ∧ d ≤ days_in_month y m))
  | _ => false

/-- C1: if the destination path already exists, `rename_file` skips
(returns `false`) and leaves the filesystem - in particular both the
source and the destination entries - unchanged. -/
theorem rename_file_dest_exists_noop
    (fs : List (String × String)) (parent_dir original_name new_filename : String)
    (os_rename_ok : Bool)
    (h : (fs.lookup (path_join parent_dir new_filename)).isSome = true) :
    rename_file fs parent_dir original_name new_filename os_rename_ok = (fs, false) ∧
    ((rename_file fs parent_dir original_name new_filename os_rename_ok).1.lookup
        (path_join parent_dir new_filename) =
      fs.lookup (path_join parent_dir new_filename)) ∧
    ((rename_file fs parent_dir original_name new_filename os_rename_ok).1.lookup
        (path_join parent_dir original_name) =
      fs.lookup (path_join parent_dir original_name)) := by
  unfold rename_file
  simp [h]

/-- Witness for C1 at a concrete two-file filesystem. -/
theorem rename_file_dest_exists_noop_witness :
    (([("dir/new.pdf", "dest"), ("dir/a.pdf", "src")] : List (String × String)).lookup
        (path_join "dir" "new.pdf")).isSome = true ∧
    rename_file [("dir/new.pdf", "dest"), ("dir/a.pdf", "src")] "dir" "a.pdf" "new.pdf" true
      = ([("dir/new.pdf", "dest"), ("dir/a.pdf", "src")], false) :=
  ⟨by decide,
   (rename_file_dest_exists_noop
      [("dir/new.pdf", "dest"), ("dir/a.pdf", "src")] "dir" "a.pdf" "new.pdf" true
      (by decide)).1⟩

/-- C3: the generated filename is the sanitized issuer, the sanitized
category and the normalized date joined by underscores, followed by
the original extension; on the record
(Acme Corp, subscription, 05-03-2024) with a `.pdf` source it is
`Acme_Corp_subscription_20240305.pdf`. -/
theorem generate_new_filename_composition :
    (∀ (invoice : Invoice) (original_name : String),
      generate_new_filename invoice original_name =
        sanitize_filename invoice.company_name ++ "_" ++
          sanitize_filename invoice.description ++ "_" ++
          parse_date_to_yyyymmdd invoice.issue_date ++ pySuffix original_name) ∧
    generate_new_filename ⟨"Acme Corp", "subscription", "05-03-2024"⟩ "invoice.pdf"
      = "Acme_Corp_subscription_20240305.pdf" :=
  ⟨fun _ _ => rfl, by decide⟩

/-- Every character that `collapseWs` emits is either the underscore
it substitutes for a whitespace run or a non-whitespace character of
the input. -/
theorem mem_collapseWs {c : Char} :
    ∀ (b : Bool) (l : List Char), c ∈ collapseWs b l →
      c = '_' ∨ (c ∈ l ∧ isPySpace c = false) := by
  intro b l
  induction l generalizing b with
  | nil => simp [collapseWs]
  | cons a l ih =>
    intro hmem
    unfold collapseWs at hmem
    by_cases ha : isPySpace a
    · have hmem' : c = '_' ∨ c ∈ collapseWs true l := by
        cases b
        · simp only [ha, if_true] at hmem
          simpa using hmem
        · simp only [ha, if_true] at hmem
          exact Or.inr (by simpa using hmem)
      rcases hmem' with h | h
      · exact Or.inl h
      · rcases ih true h with h' | ⟨h1, h2⟩
        · exact Or.inl h'
        · exact Or.inr ⟨List.mem_cons_of_mem a h1, h2⟩
    · rw [if_neg ha, List.mem_cons] at hmem
      rcases hmem with h | h
      · subst h
        exact Or.inr ⟨List.mem_cons_self c l, by simpa using ha⟩
      · rcases ih false h with h' | ⟨h1, h2⟩
        · exact Or.inl h'
        · exact Or.inr ⟨List.mem_cons_of_mem a h1, h2⟩

/-- On a whitespace-free list, `collapseWs` is the identity. -/
theorem collapseWs_eq_self :
    ∀ (b : Bool) (l : List Char), (∀ c ∈ l, isPySpace c = false) →
      collapseWs b l = l := by
  intro b l
  induction l generalizing b with
  | nil => intro _; rfl
  | cons a l ih =>
    intro h
    unfold collapseWs
    have ha := h a (List.mem_cons_self a l)
    simp only [ha, if_false]
    rw [ih false (fun c hc => h c (List.mem_cons_of_mem a hc))]
    simp [ha]

/-- Dropping a prefix keeps membership. -/
theorem mem_of_mem_dropWhile {c : Char} (p : Char → Bool) :
    ∀ l : List Char, c ∈ l.dropWhile p → c ∈ l := by
  intro l
  induction l with
  | nil => simp
  | cons a l ih =>
    intro h
    rw [List.dropWhile_cons] at h
    by_cases ha : p a
    · simp only [ha, if_true] at h
      exact List.mem_cons_of_mem a (ih h)
    · simpa [ha] using h

/-- The head left by `dropWhile` does not satisfy the predicate. -/
theorem head?_dropWhile_false {c : Char} (p : Char → Bool) :
    ∀ l : List Char, (l.dropWhile p).head? = some c → p c = false := by
  intro l
  induction l with
  | nil => simp
  | cons a l ih =>
    intro h
    rw [List.dropWhile_cons] at h
    by_cases ha : p a
    · exact ih (by simpa [ha] using h)
    · rw [if_neg ha, List.head?_cons, Option.some.injEq] at h
      subst h
      simpa using ha

/-- If the head does not satisfy the predicate, `dropWhile` does
nothing. -/
theorem dropWhile_eq_self_of_head {p : Char → Bool} :
    ∀ l : List Char, (∀ c, l.head? = some c → p c = false) →
      l.dropWhile p = l := by
  intro l h
  cases l with
  | nil => rfl
  | cons a l => simp [List.dropWhile_cons, h a rfl]

/-- A nonempty `dropWhile` result keeps the last element. -/
theorem getLast?_dropWhile (p : Char → Bool) :
    ∀ l : List Char, l.dropWhile p ≠ [] →
      (l.dropWhile p).getLast? = l.getLast? := by
  intro l
  induction l with
  | nil => intro h; simp at h
  | cons a l ih =>
    intro h
    rw [List.dropWhile_cons] at h ⊢
    by_cases ha : p a
    · simp only [ha, if_true] at h ⊢
      have hl : l ≠ [] := by
        intro he
        rw [he] at h
        simp at h
      rw [ih h]
      cases l with
      | nil => exact absurd rfl hl
      | cons b l => rw [List.getLast?_cons_cons]
    · simp [ha]

/-- Characters surviving `pyStrip` come from the input. -/
theorem mem_pyStrip {c : Char} (l : List Char) :
    c ∈ pyStrip l → c ∈ l := by
  intro h
  unfold pyStrip at h
  rw [List.mem_reverse] at h
  have h1 := mem_of_mem_dropWhile stripChar _ h
  rw [List.mem_reverse] at h1
  exact mem_of_mem_dropWhile stripChar _ h1

/-- The first character of a stripped list is neither a space nor a
dot. -/
theorem pyStrip_head (l : List Char) :
    ∀ c, (pyStrip l).head? = some c → stripChar c = false := by
  intro c h
  unfold pyStrip at h
  rw [List.head?_reverse] at h
  have hne : (l.dropWhile stripChar).reverse.dropWhile stripChar ≠ [] := by
    intro he
    rw [he] at h
    simp at h
  rw [getLast?_dropWhile stripChar _ hne, List.getLast?_reverse] at h
  exact head?_dropWhile_false stripChar l h

/-- The last character of a stripped list is neither a space nor a
dot. -/
theorem pyStrip_getLast (l : List Char) :
    ∀ c, (pyStrip l).getLast? = some c → stripChar c = false := by
  intro c h
  unfold pyStrip at h
  rw [List.getLast?_reverse] at h
  exact head?_dropWhile_false stripChar _ h

/-- A list whose two ends are clean is unchanged by `pyStrip`. -/
theorem pyStrip_eq_self (l : List Char)
    (h1 : ∀ c, l.head? = some c → stripChar c = false)
    (h2 : ∀ c, l.getLast? = some c → stripChar c = false) :
    pyStrip l = l := by
  unfold pyStrip
  rw [dropWhile_eq_self_of_head l h1]
  rw [dropWhile_eq_self_of_head l.reverse
    (fun c hc => h2 c (by rwa [List.head?_reverse] at hc))]
  exact List.reverse_reverse l

/-- The character list underlying `sanitize_filename`. -/
theorem sanitize_filename_toList (x : String) :
    (sanitize_filename x).toList =
      pyStrip (collapseWs false (x.toList.filter (fun c => !is_invalid_char c))) := rfl

/-- Characters of a sanitized string are legal and non-whitespace. -/
theorem sanitize_mem_facts (x : String) :
    ∀ c ∈ (sanitize_filename x).toList,
      is_invalid_char c = false ∧ isPySpace c = false := by
  intro c hc
  rw [sanitize_filename_toList] at hc
  have h1 := mem_pyStrip _ hc
  rcases mem_collapseWs false _ h1 with h | ⟨h2, h3⟩
  · subst h
    exact ⟨by decide, by decide⟩
  · rw [List.mem_filter] at h2
    exact ⟨by simpa using h2.2, h3⟩

/-- C5: a sanitized string contains none of the nine illegal
filename characters, contains no whitespace character at all (hence
no whitespace run), and neither starts nor ends with a space or a
dot. -/
theorem sanitize_filename_safety (x : String) :
    (∀ c ∈ (sanitize_filename x).toList,
        is_invalid_char c = false ∧ isPySpace c = false) ∧
    (∀ c, (sanitize_filename x).toList.head? = some c → c ≠ ' ' ∧ c ≠ '.') ∧
    (∀ c, (sanitize_filename x).toList.getLast? = some c → c ≠ ' ' ∧ c ≠ '.') := by
  refine ⟨sanitize_mem_facts x, ?_, ?_⟩
  · intro c hc
    rw [sanitize_filename_toList] at hc
    have := pyStrip_head _ c hc
    simp only [stripChar, Bool.or_eq_false_iff, beq_eq_false_iff_ne, ne_eq] at this
    exact this
  · intro c hc
    rw [sanitize_filename_toList] at hc
    have := pyStrip_getLast _ c hc
    simp only [stripChar, Bool.or_eq_false_iff, beq_eq_false_iff_ne, ne_eq] at this
    exact this

/-- C6: `sanitize_filename` is idempotent. -/
theorem sanitize_filename_idem (x : String) :
    sanitize_filename (sanitize_filename x) = sanitize_filename x := by
  have hmem := sanitize_mem_facts x
  have hfilter :
      (sanitize_filename x).toList.filter (fun c => !is_invalid_char c) =
        (sanitize_filename x).toList := by
    apply List.filter_eq_self.mpr
    intro c hc
    simp [(hmem c hc).1]
  have hcollapse :
      collapseWs false (sanitize_filename x).toList =
        (sanitize_filename x).toList :=
    collapseWs_eq_self false _ (fun c hc => (hmem c hc).2)
  have hstripc : ∀ c, stripChar c = false ↔ (c ≠ ' ' ∧ c ≠ '.') := by
    intro c
    simp [stripChar]
  have hstrip : pyStrip (sanitize_filename x).toList =
      (sanitize_filename x).toList := by
    apply pyStrip_eq_self
    · intro c hc
      exact (hstripc c).mpr ((sanitize_filename_safety x).2.1 c hc)
    · intro c hc
      exact (hstripc c).mpr ((sanitize_filename_safety x).2.2 c hc)
  show String.mk (pyStrip (collapseWs false
    ((sanitize_filename x).toList.filter (fun c => !is_invalid_char c)))) = _
  rw [hfilter, hcollapse, hstrip]
  rfl

/-- The success count never exceeds the number of files. -/
theorem process_loop_fst_le (l : List FileEvent) :
    (process_loop l).1 ≤ l.length := by
  induction l with
  | nil => simp [process_loop]
  | cons e rest ih => cases e <;> simp [process_loop] <;> omega

/-- The success count equals the total exactly when every file
succeeded. -/
theorem process_loop_fst_eq_length_iff (l : List FileEvent) :
    (process_loop l).1 = l.length ↔ ∀ e ∈ l, e = FileEvent.success := by
  induction l with
  | nil => simp [process_loop]
  | cons e rest ih =>
    have hle := process_loop_fst_le rest
    cases e with
    | success =>
      have h1 : (process_loop (FileEvent.success :: rest)).1 =
          (process_loop rest).1 + 1 := rfl
      rw [h1, List.length_cons]
      constructor
      · intro h
        intro e he
        rcases List.mem_cons.mp he with he | he
        · exact he
        · exact (ih.mp (by omega)) e he
      · intro h
        have := ih.mpr (fun e he => h e (List.mem_cons_of_mem _ he))
        omega
    | failure =>
      have h1 : (process_loop (FileEvent.failure :: rest)).1 =
          (process_loop rest).1 := rfl
      rw [h1, List.length_cons]
      constructor
      · intro h
        exact absurd h (by omega)
      · intro h
        exact FileEvent.noConfusion (h FileEvent.failure (List.mem_cons_self _ _))
    | raised =>
      have h1 : (process_loop (FileEvent.raised :: rest)).1 =
          (process_loop rest).1 := rfl
      rw [h1, List.length_cons]
      constructor
      · intro h
        exact absurd h (by omega)
      · intro h
        exact FileEvent.noConfusion (h FileEvent.raised (List.mem_cons_self _ _))
    | interrupt =>
      have h1 : (process_loop (FileEvent.interrupt :: rest)).1 = 0 := rfl
      rw [h1, List.length_cons]
      constructor
      · intro h
        exact absurd h (by omega)
      · intro h
        exact FileEvent.noConfusion (h FileEvent.interrupt (List.mem_cons_self _ _))

/-- Splitting the loop at an interrupt-free prefix: the prefix is
fully processed, its successes add up, and processing continues into
the remainder. -/
theorem process_loop_append_no_interrupt (l1 l2 : List FileEvent)
    (h : FileEvent.interrupt ∉ l1) :
    process_loop (l1 ++ l2) =
      ((process_loop l1).1 + (process_loop l2).1, l1 ++ (process_loop l2).2) := by
  induction l1 with
  | nil => simp [process_loop]
  | cons e rest ih =>
    have hne : e ≠ FileEvent.interrupt := fun he => h (he ▸ List.mem_cons_self e rest)
    have hni : FileEvent.interrupt ∉ rest := fun hm => h (List.mem_cons_of_mem e hm)
    cases e with
    | success =>
      rw [List.cons_append]
      have h1 : process_loop (FileEvent.success :: (rest ++ l2)) =
          ((process_loop (rest ++ l2)).1 + 1,
            FileEvent.success :: (process_loop (rest ++ l2)).2) := rfl
      have h2 : (process_loop (FileEvent.success :: rest)).1 =
          (process_loop rest).1 + 1 := rfl
      rw [h1, ih hni, h2, Prod.mk.injEq]
      exact ⟨by omega, rfl⟩
    | failure =>
      rw [List.cons_append]
      have h1 : process_loop (FileEvent.failure :: (rest ++ l2)) =
          ((process_loop (rest ++ l2)).1,
            FileEvent.failure :: (process_loop (rest ++ l2)).2) := rfl
      have h2 : (process_loop (FileEvent.failure :: rest)).1 =
          (process_loop rest).1 := rfl
      rw [h1, ih hni, h2, Prod.mk.injEq]
      exact ⟨rfl, rfl⟩
    | raised =>
      rw [List.cons_append]
      have h1 : process_loop (FileEvent.raised :: (rest ++ l2)) =
          ((process_loop (rest ++ l2)).1,
            FileEvent.raised :: (process_loop (rest ++ l2)).2) := rfl
      have h2 : (process_loop (FileEvent.raised :: rest)).1 =
          (process_loop rest).1 := rfl
      rw [h1, ih hni, h2, Prod.mk.injEq]
      exact ⟨rfl, rfl⟩
    | interrupt => exact absurd rfl hne

/-- C7: a per-file failure (a `False` outcome or an unexpected
exception) never terminates the batch: with no interrupt before it,
the failing file and every later file are still processed, and the
failure contributes nothing to the success count. -/
theorem process_loop_failure_isolated (pre post : List FileEvent) (e : FileEvent)
    (he : e = FileEvent.failure ∨ e = FileEvent.raised)
    (hpre : FileEvent.interrupt ∉ pre) :
    (process_loop (pre ++ e :: post)).2 = pre ++ e :: (process_loop post).2 ∧
    (process_loop (pre ++ e :: post)).1 =
      (process_loop pre).1 + (process_loop post).1 := by
  have h := process_loop_append_no_interrupt pre (e :: post) hpre
  rcases he with he | he <;> subst he <;> simp [h, process_loop]

/-- Witness for C7: a failure between two successes leaves both
processed. -/
theorem process_loop_failure_isolated_witness :
    (FileEvent.interrupt ∉ [FileEvent.success] ∧
      (process_loop ([FileEvent.success] ++ FileEvent.failure :: [FileEvent.success])).2 =
        [FileEvent.success] ++ FileEvent.failure ::
          (process_loop [FileEvent.success]).2) :=
  ⟨by decide,
   (process_loop_failure_isolated [FileEvent.success] [FileEvent.success]
      FileEvent.failure (Or.inl rfl) (by decide)).1⟩

/-- C9: an interrupt halts the batch at the file where it is
observed: nothing after it is processed, the successes accumulated
before it are reported, and the total still counts every discovered
file. -/
theorem process_loop_interrupt_halts (pre post : List FileEvent)
    (hpre : FileEvent.interrupt ∉ pre) :
    process_loop (pre ++ FileEvent.interrupt :: post) =
      ((process_loop pre).1, pre ++ [FileEvent.interrupt]) ∧
    ∀ st : FolderState, validate_folder st = true →
      (get_pdf_files st).map Entry.event = pre ++ FileEvent.interrupt :: post →
      process_all_files st = ((process_loop pre).1, pre.length + 1 + post.length) ∧
      processed_trace st = pre ++ [FileEvent.interrupt] := by
  have h := process_loop_append_no_interrupt pre (FileEvent.interrupt :: post) hpre
  have hloop : process_loop (pre ++ FileEvent.interrupt :: post) =
      ((process_loop pre).1, pre ++ [FileEvent.interrupt]) := by
    simp [h, process_loop]
  refine ⟨hloop, ?_⟩
  intro st hv hmap
  have hlenmap : (get_pdf_files st).length = pre.length + 1 + post.length := by
    have h' := congrArg List.length hmap
    simp [List.length_append] at h'
    omega
  have hne : get_pdf_files st ≠ [] := by
    intro h0
    rw [h0] at hlenmap
    simp at hlenmap
    omega
  have hbool : (get_pdf_files st).isEmpty = false := by
    simpa [List.isEmpty_iff] using hne
  constructor
  · simp only [process_all_files, hv, if_true, hbool, Bool.false_eq_true, if_false]
    rw [hmap, hloop, hlenmap]
  · simp only [processed_trace, hv, if_true, hbool, Bool.false_eq_true, if_false]
    rw [hmap, hloop]

/-- Witness for C9: three PDFs, interrupt on the second; the batch
reports one success out of three and never touches the third file. -/
theorem process_loop_interrupt_halts_witness :
    FileEvent.interrupt ∉ [FileEvent.success] ∧
    process_all_files
        ⟨true, true, false,
          [⟨"a.pdf", true, FileEvent.success⟩,
           ⟨"b.pdf", true, FileEvent.interrupt⟩,
           ⟨"c.pdf", true, FileEvent.failure⟩]⟩ =
      ((process_loop [FileEvent.success]).1, 1 + 1 + 1) :=
  ⟨by decide,
   ((process_loop_interrupt_halts [FileEvent.success] [FileEvent.failure]
      (by decide)).2
      ⟨true, true, false,
        [⟨"a.pdf", true, FileEvent.success⟩,
         ⟨"b.pdf", true, FileEvent.interrupt⟩,
         ⟨"c.pdf", true, FileEvent.failure⟩]⟩
      (by decide) (by decide)).1⟩

/-- C8: when the target is missing or not a directory, the batch
aborts before touching anything: it returns zero successes over zero
total, processes no file, and the outcome does not depend on the
directory entries at all. -/
theorem process_all_files_invalid_folder (st : FolderState)
    (h : validate_folder st = false) :
    process_all_files st = (0, 0) ∧ processed_trace st = [] ∧
    ∀ entries : List Entry,
      process_all_files { st with entries := entries } = (0, 0) := by
  have h2 : ∀ entries : List Entry,
      validate_folder { st with entries := entries } = false := by
    intro entries
    simpa [validate_folder] using h
  refine ⟨?_, ?_, ?_⟩
  · simp [process_all_files, h]
  · simp [processed_trace, h]
  · intro entries
    simp [process_all_files, h2 entries]

/-- Witness for C8 at a missing folder that would contain one PDF. -/
theorem process_all_files_invalid_folder_witness :
    validate_folder ⟨false, true, false, [⟨"a.pdf", true, FileEvent.success⟩]⟩ = false ∧
    process_all_files ⟨false, true, false, [⟨"a.pdf", true, FileEvent.success⟩]⟩ = (0, 0) :=
  ⟨by decide,
   (process_all_files_invalid_folder
      ⟨false, true, false, [⟨"a.pdf", true, FileEvent.success⟩]⟩ (by decide)).1⟩

/-- C10: a `PermissionError` while listing an existing directory
makes the file list empty, so the run reports zero over zero and
exits with code 1 - exactly the observable behavior of a valid but
empty folder. -/
theorem perm_denied_indistinguishable (st : FolderState)
    (h1 : st.fs_exists = true) (h2 : st.is_dir = true)
    (h3 : st.perm_denied = true) :
    get_pdf_files st = [] ∧
    process_all_files st = (0, 0) ∧
    main_exit st = 1 ∧
    process_all_files st = process_all_files ⟨true, true, false, []⟩ ∧
    main_exit st = main_exit ⟨true, true, false, []⟩ := by
  have hg : get_pdf_files st = [] := by simp [get_pdf_files, h3]
  have hv : validate_folder st = true := by simp [validate_folder, h1, h2]
  have hp : process_all_files st = (0, 0) := by simp [process_all_files, hv, hg]
  have hm : main_exit st = 1 := by simp [main_exit, hp]
  refine ⟨hg, hp, hm, ?_, ?_⟩
  · rw [hp]; rfl
  · rw [hm]; rfl

/-- Witness for C10 at a readable-looking folder whose listing is
denied. -/
theorem perm_denied_indistinguishable_witness :
    (FolderState.mk true true true [⟨"a.pdf", true, FileEvent.success⟩]).fs_exists = true ∧
    main_exit ⟨true, true, true, [⟨"a.pdf", true, FileEvent.success⟩]⟩ = 1 :=
  ⟨rfl,
   (perm_denied_indistinguishable
      ⟨true, true, true, [⟨"a.pdf", true, FileEvent.success⟩]⟩ rfl rfl rfl).2.2.1⟩

/-- C2: the exit code is always 0 or 1; it is 0 exactly when at least
one file was discovered and every discovered file succeeded; in
particular an interrupt observed during the batch forces exit code
1. -/
theorem main_exit_contract (st : FolderState) :
    (main_exit st = 0 ∨ main_exit st = 1) ∧
    (main_exit st = 0 ↔
      (discovered st ≠ [] ∧ ∀ e ∈ discovered st, e.event = FileEvent.success)) ∧
    (FileEvent.interrupt ∈ (discovered st).map Entry.event → main_exit st = 1) := by
  by_cases hv : validate_folder st = true
  · by_cases hemp : get_pdf_files st = []
    · have hm : main_exit st = 1 := by
        simp [main_exit, process_all_files, hv, hemp]
      have hd : discovered st = [] := by simp [discovered, hv, hemp]
      rw [hm, hd]
      simp
    · have hbool : (get_pdf_files st).isEmpty = false := by
        simpa [List.isEmpty_iff] using hemp
      have hd : discovered st = get_pdf_files st := by simp [discovered, hv]
      have hlen : (get_pdf_files st).length ≠ 0 := by
        simpa [List.length_eq_zero] using hemp
      have hpa : process_all_files st =
          ((process_loop ((get_pdf_files st).map Entry.event)).1,
            (get_pdf_files st).length) := by
        simp [process_all_files, hv, hbool]
      have hiff : (process_loop ((get_pdf_files st).map Entry.event)).1 =
            (get_pdf_files st).length ↔
          ∀ e ∈ get_pdf_files st, e.event = FileEvent.success := by
        rw [show (get_pdf_files st).length =
          ((get_pdf_files st).map Entry.event).length by simp]
        rw [process_loop_fst_eq_length_iff]
        constructor
        · intro h e he
          exact h e.event (List.mem_map_of_mem Entry.event he)
        · intro h ev hev
          rcases List.mem_map.mp hev with ⟨e, he, rfl⟩
          exact h e he
      by_cases hc : (process_loop ((get_pdf_files st).map Entry.event)).1 =
          (get_pdf_files st).length
      · have hm : main_exit st = 0 := by
          simp [main_exit, hpa, hc, hlen]
        refine ⟨Or.inl hm, ?_, ?_⟩
        · rw [hm, hd]
          exact iff_of_true rfl ⟨hemp, hiff.mp hc⟩
        · intro hint
          exfalso
          rw [hd] at hint
          rcases List.mem_map.mp hint with ⟨e, he, heq⟩
          have := hiff.mp hc e he
          rw [this] at heq
          exact FileEvent.noConfusion heq
      · have hm : main_exit st = 1 := by
          simp [main_exit, hpa, hc, hlen]
        refine ⟨Or.inr hm, ?_, fun _ => hm⟩
        rw [hm, hd]
        constructor
        · intro h10
          exact absurd h10 (by omega)
        · intro h
          exact absurd (hiff.mpr h.2) hc
  · have hm : main_exit st = 1 := by
      simp [main_exit, process_all_files, hv]
    have hd : discovered st = [] := by simp [discovered, hv]
    rw [hm, hd]
    simp

/-- Every month has at most 31 days. -/
theorem days_in_month_le_31 (y m : Nat) : days_in_month y m ≤ 31 := by
  unfold days_in_month
  split_ifs <;> omega

/-- Behavior of the two alternation outcomes. -/
theorem optionOrElse_some {α : Type} (r : α) (b : Option α) :
    optionOrElse (some r) b = some r := rfl

/-- Behavior of the alternation when the first branch fails. -/
theorem optionOrElse_none {α : Type} (b : Option α) :
    optionOrElse none b = b := rfl

/-- ASCII digits sit in the first decade run of the table. -/
theorem pyDigitBase_ascii (c : Char) (h1 : 48 ≤ c.toNat) (h2 : c.toNat ≤ 57) :
    pyDigitBase c = some 48 := by
  unfold pyDigitBase ndRangeStarts
  apply List.find?_cons_of_pos
  simp only [Bool.and_eq_true, decide_eq_true_eq]
  omega

/-- An ASCII digit is a Unicode decimal digit. -/
theorem isPyDigit_ascii (c : Char) (h1 : 48 ≤ c.toNat) (h2 : c.toNat ≤ 57) :
    isPyDigit c = true := by
  unfold isPyDigit
  rw [pyDigitBase_ascii c h1 h2]
  rfl

/-- The digit value of an ASCII digit is its offset from `0`. -/
theorem pyDigitVal_ascii (c : Char) (h1 : 48 ≤ c.toNat) (h2 : c.toNat ≤ 57) :
    pyDigitVal c = c.toNat - 48 := by
  unfold pyDigitVal
  rw [pyDigitBase_ascii c h1 h2]

/-- Every digit value is at most 9. -/
theorem pyDigitVal_le (c : Char) : pyDigitVal c ≤ 9 := by
  cases hb : pyDigitBase c with
  | none => simp [pyDigitVal, hb]
  | some b =>
    have hv : pyDigitVal c = c.toNat - b := by
      unfold pyDigitVal
      rw [hb]
    unfold pyDigitBase at hb
    have hp := List.find?_some hb
    simp only [Bool.and_eq_true, decide_eq_true_eq] at hp
    omega

/-- A month match is in range. -/
theorem matchMonth2_bounds (c1 c2 : Char) (m : Nat) (h : matchMonth2 c1 c2 = some m) :
    1 ≤ m ∧ m ≤ 12 := by
  unfold matchMonth2 at h
  split_ifs at h with h1 h2
  · simp only [Option.some.injEq] at h
    omega
  · simp only [Option.some.injEq] at h
    omega

/-- A four-digit year is below 10000. -/
theorem matchYearEnd_lt (cs : List Char) (y : Nat) (h : matchYearEnd cs = some y) :
    y < 10000 := by
  unfold matchYearEnd at h
  split at h
  · rename_i a b c d
    split_ifs at h with hc
    have v1 := pyDigitVal_le a
    have v2 := pyDigitVal_le b
    have v3 := pyDigitVal_le c
    have v4 := pyDigitVal_le d
    simp only [Option.some.injEq] at h
    omega
  · exact absurd h (by simp)

/-- The year bound carried through the dash. -/
theorem matchDashYear_lt (cs : List Char) (y : Nat) (h : matchDashYear cs = some y) :
    y < 10000 := by
  unfold matchDashYear at h
  split_ifs at h
  exact matchYearEnd_lt _ y h

/-- Month and year bounds through the two-character month branch. -/
theorem monthTwoThenRest_bounds (c1 c2 : Char) (rest : List Char) (m y : Nat)
    (h : monthTwoThenRest c1 c2 rest = some (m, y)) :
    1 ≤ m ∧ m ≤ 12 ∧ y < 10000 := by
  unfold monthTwoThenRest at h
  split at h
  · rename_i m' hm
    split at h
    · rename_i y' hy
      simp only [Option.some.injEq, Prod.mk.injEq] at h
      have hb1 := matchMonth2_bounds c1 c2 m' hm
      have hb2 := matchDashYear_lt rest y' hy
      omega
    · exact absurd h (by simp)
  · exact absurd h (by simp)

/-- Month and year bounds through the one-character month branch. -/
theorem monthOneThenRest_bounds (c1 : Char) (rest : List Char) (m y : Nat)
    (h : monthOneThenRest c1 rest = some (m, y)) :
    1 ≤ m ∧ m ≤ 12 ∧ y < 10000 := by
  unfold monthOneThenRest at h
  split_ifs at h with hc
  split at h
  · rename_i y' hy
    simp only [Option.some.injEq, Prod.mk.injEq] at h
    have hb := matchDashYear_lt rest y' hy
    omega
  · exact absurd h (by simp)

/-- Month and year bounds for the whole month-and-rest match. -/
theorem matchMonthDashYear_bounds (cs : List Char) (m y : Nat)
    (h : matchMonthDashYear cs = some (m, y)) :
    1 ≤ m ∧ m ≤ 12 ∧ y < 10000 := by
  cases cs with
  | nil => simp [matchMonthDashYear] at h
  | cons c1 tail =>
    cases tail with
    | nil =>
      simp only [matchMonthDashYear] at h
      exact monthOneThenRest_bounds c1 [] m y h
    | cons c2 rest =>
      simp only [matchMonthDashYear] at h
      cases hmt : monthTwoThenRest c1 c2 rest with
      | some r =>
        rw [hmt, optionOrElse_some] at h
        obtain ⟨rm, ry⟩ := r
        simp only [Option.some.injEq, Prod.mk.injEq] at h
        have hb := monthTwoThenRest_bounds c1 c2 rest rm ry hmt
        omega
      | none =>
        rw [hmt, optionOrElse_none] at h
        exact monthOneThenRest_bounds c1 (c2 :: rest) m y h

/-- The bounds carried through the first dash. -/
theorem matchDashMonthDashYear_bounds (cs : List Char) (m y : Nat)
    (h : matchDashMonthDashYear cs = some (m, y)) :
    1 ≤ m ∧ m ≤ 12 ∧ y < 10000 := by
  unfold matchDashMonthDashYear at h
  split_ifs at h
  exact matchMonthDashYear_bounds _ m y h

/-- The bounds through the two-character day branch. -/
theorem dayTwoThenRest_bounds (c1 c2 : Char) (rest : List Char) (d m y : Nat)
    (h : dayTwoThenRest c1 c2 rest = some (d, m, y)) :
    1 ≤ m ∧ m ≤ 12 ∧ y < 10000 := by
  unfold dayTwoThenRest at h
  split at h
  · rename_i d' hd
    split at h
    · rename_i m' y' hp
      simp only [Option.some.injEq, Prod.mk.injEq] at h
      have hb := matchDashMonthDashYear_bounds rest m' y' hp
      omega
    · exact absurd h (by simp)
  · exact absurd h (by simp)

/-- The bounds through the one-character day branch. -/
theorem dayOneThenRest_bounds (c1 : Char) (rest : List Char) (d m y : Nat)
    (h : dayOneThenRest c1 rest = some (d, m, y)) :
    1 ≤ m ∧ m ≤ 12 ∧ y < 10000 := by
  unfold dayOneThenRest at h
  split_ifs at h with hc
  split at h
  · rename_i m' y' hp
    simp only [Option.some.injEq, Prod.mk.injEq] at h
    have hb := matchDashMonthDashYear_bounds rest m' y' hp
    omega
  · exact absurd h (by simp)

/-- Month and year bounds for the full regex match. -/
theorem pyDateParse_bounds (cs : List Char) (d m y : Nat)
    (h : pyDateParse cs = some (d, m, y)) :
    1 ≤ m ∧ m ≤ 12 ∧ y < 10000 := by
  cases cs with
  | nil => simp [pyDateParse] at h
  | cons c1 tail =>
    cases tail with
    | nil =>
      simp only [pyDateParse] at h
      exact dayOneThenRest_bounds c1 [] d m y h
    | cons c2 rest =>
      simp only [pyDateParse] at h
      cases hdt : dayTwoThenRest c1 c2 rest with
      | some r =>
        rw [hdt, optionOrElse_some] at h
        obtain ⟨rd, rm, ry⟩ := r
        simp only [Option.some.injEq, Prod.mk.injEq] at h
        have hb := dayTwoThenRest_bounds c1 c2 rest rd rm ry hdt
        omega
      | none =>
        rw [hdt, optionOrElse_none] at h
        exact dayOneThenRest_bounds c1 (c2 :: rest) d m y h

/-- A successful parse carries the `strptime` and `datetime` range
constraints. -/
theorem strptime_some_bounds (s : String) (d m y : Nat)
    (h : strptime_d_m_Y s = some (d, m, y)) :
    1 ≤ d ∧ d ≤ 31 ∧ 1 ≤ m ∧ m ≤ 12 ∧ 1 ≤ y ∧ y < 10000 := by
  unfold strptime_d_m_Y at h
  split at h
  · rename_i d0 m0 y0 hp
    split_ifs at h with hv
    simp only [Option.some.injEq, Prod.mk.injEq] at h
    have hd31 : d0 ≤ 31 := le_trans hv.2.2 (days_in_month_le_31 y0 m0)
    have hmy := pyDateParse_bounds s.toList d0 m0 y0 hp
    omega
  · exact absurd h (by simp)

/-- An ASCII digit character has a codepoint between 48 and 57. -/
theorem char_isDigit_toNat (c : Char) (h : c.isDigit = true) :
    48 ≤ c.toNat ∧ c.toNat ≤ 57 := by
  simp only [Char.isDigit, Bool.and_eq_true, decide_eq_true_eq, ge_iff_le] at h
  obtain ⟨h1, h2⟩ := h
  rw [UInt32.le_def, BitVec.le_def] at h1 h2
  have hc : c.toNat = c.val.toBitVec.toNat := rfl
  have h48 : (48 : UInt32).toBitVec.toNat = 48 := rfl
  have h57 : (57 : UInt32).toBitVec.toNat = 57 := rfl
  omega

/-- A string in the spec's strict two-digit-day, two-digit-month,
four-digit-year valid-date format is accepted by the code's lenient
`strptime` parser. -/
theorem strict_accepted (s : String) (hs : strict_ddmmyyyy_spec s = true) :
    ∃ y m d, strptime_d_m_Y s = some (d, m, y) := by
  unfold strict_ddmmyyyy_spec at hs
  split at hs
  case h_2 => exact absurd hs (by simp)
  case h_1 d1 d2 h1c m1 m2 h2c y1 y2 y3 y4 heq =>
    simp only [Bool.and_eq_true, beq_iff_eq, List.all_cons, List.all_nil,
      Bool.and_true, decide_eq_true_eq] at hs
    obtain ⟨⟨⟨hh1, hh2⟩, hdig⟩, hvals⟩ := hs
    subst hh1
    subst hh2
    obtain ⟨hd1, hd2, hm1, hm2, hy1, hy2, hy3, hy4⟩ := hdig
    obtain ⟨hd1a, hd1b⟩ := char_isDigit_toNat d1 hd1
    obtain ⟨hd2a, hd2b⟩ := char_isDigit_toNat d2 hd2
    obtain ⟨hm1a, hm1b⟩ := char_isDigit_toNat m1 hm1
    obtain ⟨hm2a, hm2b⟩ := char_isDigit_toNat m2 hm2
    obtain ⟨hy1a, hy1b⟩ := char_isDigit_toNat y1 hy1
    obtain ⟨hy2a, hy2b⟩ := char_isDigit_toNat y2 hy2
    obtain ⟨hy3a, hy3b⟩ := char_isDigit_toNat y3 hy3
    obtain ⟨hy4a, hy4b⟩ := char_isDigit_toNat y4 hy4
    have hD : digitsVal [d1, d2] = (d1.toNat - 48) * 10 + (d2.toNat - 48) := by
      simp [digitsVal]
    have hM : digitsVal [m1, m2] = (m1.toNat - 48) * 10 + (m2.toNat - 48) := by
      simp [digitsVal]
    have hY : digitsVal [y1, y2, y3, y4] =
        (((y1.toNat - 48) * 10 + (y2.toNat - 48)) * 10 + (y3.toNat - 48)) * 10
          + (y4.toNat - 48) := by
      simp [digitsVal]
    obtain ⟨hvy, hvm1, hvm12, hvd1, hvdd⟩ := hvals
    have hddays : digitsVal [d1, d2] ≤ 31 :=
      le_trans hvdd (days_in_month_le_31 _ _)
    have hyear : matchYearEnd [y1, y2, y3, y4] = some (digitsVal [y1, y2, y3, y4]) := by
      simp only [matchYearEnd]
      rw [if_pos ⟨isPyDigit_ascii y1 hy1a hy1b, isPyDigit_ascii y2 hy2a hy2b,
        isPyDigit_ascii y3 hy3a hy3b, isPyDigit_ascii y4 hy4a hy4b⟩]
      rw [pyDigitVal_ascii y1 hy1a hy1b, pyDigitVal_ascii y2 hy2a hy2b,
        pyDigitVal_ascii y3 hy3a hy3b, pyDigitVal_ascii y4 hy4a hy4b]
      simp only [Option.some.injEq]
      omega
    have hdy : matchDashYear ['-', y1, y2, y3, y4] =
        some (digitsVal [y1, y2, y3, y4]) := by
      simp [matchDashYear, hyear]
    have hmonth2 : matchMonth2 m1 m2 = some (digitsVal [m1, m2]) := by
      unfold matchMonth2
      have hcase : m1.toNat = 48 ∨ m1.toNat = 49 := by omega
      rcases hcase with hc | hc
      · rw [if_neg (by omega), if_pos ⟨hc, by omega, by omega⟩]
        simp only [Option.some.injEq]
        omega
      · rw [if_pos ⟨hc, by omega, by omega⟩]
        simp only [Option.some.injEq]
        omega
    have hmt : monthTwoThenRest m1 m2 ['-', y1, y2, y3, y4] =
        some (digitsVal [m1, m2], digitsVal [y1, y2, y3, y4]) := by
      unfold monthTwoThenRest
      rw [hmonth2, hdy]
    have hmdy : matchMonthDashYear [m1, m2, '-', y1, y2, y3, y4] =
        some (digitsVal [m1, m2], digitsVal [y1, y2, y3, y4]) := by
      simp only [matchMonthDashYear]
      rw [hmt, optionOrElse_some]
    have hdmy : matchDashMonthDashYear ['-', m1, m2, '-', y1, y2, y3, y4] =
        some (digitsVal [m1, m2], digitsVal [y1, y2, y3, y4]) := by
      simp [matchDashMonthDashYear, hmdy]
    have hday2 : matchDay2 d1 d2 = some (digitsVal [d1, d2]) := by
      unfold matchDay2
      have hcase : d1.toNat = 48 ∨ d1.toNat = 49 ∨ d1.toNat = 50 ∨ d1.toNat = 51 := by
        omega
      rcases hcase with hc | hc | hc | hc
      · rw [if_neg (by omega), if_neg (fun hcon => by omega),
          if_pos ⟨hc, by omega, by omega⟩]
        simp only [Option.some.injEq]
        omega
      · rw [if_neg (by omega),
          if_pos ⟨Or.inl hc, isPyDigit_ascii d2 hd2a hd2b⟩,
          pyDigitVal_ascii d2 hd2a hd2b]
        simp only [Option.some.injEq]
        omega
      · rw [if_neg (by omega),
          if_pos ⟨Or.inr hc, isPyDigit_ascii d2 hd2a hd2b⟩,
          pyDigitVal_ascii d2 hd2a hd2b]
        simp only [Option.some.injEq]
        omega
      · rw [if_pos ⟨hc, by omega, by omega⟩]
        simp only [Option.some.injEq]
        omega
    have hdt : dayTwoThenRest d1 d2 ['-', m1, m2, '-', y1, y2, y3, y4] =
        some (digitsVal [d1, d2], digitsVal [m1, m2], digitsVal [y1, y2, y3, y4]) := by
      unfold dayTwoThenRest
      rw [hday2, hdmy]
    have hpp : pyDateParse [d1, d2, '-', m1, m2, '-', y1, y2, y3, y4] =
        some (digitsVal [d1, d2], digitsVal [m1, m2], digitsVal [y1, y2, y3, y4]) := by
      simp only [pyDateParse]
      rw [hdt, optionOrElse_some]
    refine ⟨digitsVal [y1, y2, y3, y4], digitsVal [m1, m2], digitsVal [d1, d2], ?_⟩
    unfold strptime_d_m_Y
    rw [heq, hpp]
    exact if_pos ⟨hvy, hvd1, hvdd⟩

/-- The definitional unfolding of one `natCharsGo` step. -/
theorem natCharsGo_succ (fuel n : Nat) (acc : List Char) :
    natCharsGo (fuel + 1) n acc =
      if n < 10 then Char.ofNat (48 + n) :: acc
      else natCharsGo fuel (n / 10) (Char.ofNat (48 + n % 10) :: acc) := rfl

/-- The rendering does not depend on the fuel once it is sufficient. -/
theorem natCharsGo_fuel (f1 : Nat) : ∀ (f2 n : Nat) (acc : List Char),
    n < f1 → n < f2 → natCharsGo f1 n acc = natCharsGo f2 n acc := by
  induction f1 with
  | zero => intro f2 n acc h1 _; omega
  | succ f1 ih =>
    intro f2 n acc h1 h2
    cases f2 with
    | zero => omega
    | succ f2 =>
      rw [natCharsGo_succ, natCharsGo_succ]
      by_cases hn : n < 10
      · simp [hn]
      · simp only [hn, if_false]
        have hd : n / 10 < n := Nat.div_lt_self (by omega) (by omega)
        exact ih f2 (n / 10) _ (by omega) (by omega)

/-- The accumulator is just appended to the rendered digits. -/
theorem natCharsGo_acc (fuel : Nat) : ∀ (n : Nat) (acc : List Char), n < fuel →
    natCharsGo fuel n acc = natCharsGo fuel n [] ++ acc := by
  induction fuel with
  | zero => intro n acc h; omega
  | succ fuel ih =>
    intro n acc h
    rw [natCharsGo_succ, natCharsGo_succ]
    by_cases hn : n < 10
    · simp [hn]
    · simp only [hn, if_false]
      have hd : n / 10 < n := Nat.div_lt_self (by omega) (by omega)
      rw [ih (n / 10) (Char.ofNat (48 + n % 10) :: acc) (by omega),
          ih (n / 10) [Char.ofNat (48 + n % 10)] (by omega)]
      simp

/-- Peeling the least significant digit off the rendering. -/
theorem natChars_step (n : Nat) (h : 10 ≤ n) :
    natChars n = natChars (n / 10) ++ [Char.ofNat (48 + n % 10)] := by
  unfold natChars
  rw [natCharsGo_succ]
  simp only [show ¬ n < 10 by omega, if_false]
  have hd : n / 10 < n := Nat.div_lt_self (by omega) (by omega)
  rw [natCharsGo_fuel n (n / 10 + 1) (n / 10) _ (by omega) (by omega)]
  exact natCharsGo_acc (n / 10 + 1) (n / 10) _ (by omega)

/-- A one-digit number renders as one character. -/
theorem natChars_len1 (n : Nat) (h : n < 10) : (natChars n).length = 1 := by
  unfold natChars
  rw [natCharsGo_succ]
  simp [h]

/-- A four-digit year renders as four characters. -/
theorem natChars_length_four (y : Nat) (h1 : 1000 ≤ y) (h2 : y < 10000) :
    (natChars y).length = 4 := by
  rw [natChars_step y (by omega), List.length_append,
      natChars_step (y / 10) (by omega), List.length_append,
      natChars_step (y / 10 / 10) (by omega), List.length_append,
      natChars_len1 (y / 10 / 10 / 10) (by omega)]
  simp

/-- A year below 1000 renders as at most three characters. -/
theorem natChars_length_le_three (y : Nat) (h : y < 1000) :
    (natChars y).length ≤ 3 := by
  by_cases h1 : y < 10
  · rw [natChars_len1 y h1]
    omega
  · by_cases h2 : y < 100
    · rw [natChars_step y (by omega), List.length_append,
        natChars_len1 (y / 10) (by omega)]
      simp
    · rw [natChars_step y (by omega), List.length_append,
        natChars_step (y / 10) (by omega), List.length_append,
        natChars_len1 (y / 10 / 10) (by omega)]
      simp

/-- Month and day fields always render as two characters. -/
theorem pad2_length (n : Nat) (h : n < 100) : (pad2 n).length = 2 := by
  unfold pad2
  by_cases hn : n < 10
  · simp [hn]
  · simp only [hn, if_false]
    rw [natChars_step n (by omega), List.length_append, natChars_len1 (n / 10) (by omega)]
    simp

/-- Within `strptime`'s ranges the formatted date has eight
characters exactly when the year has four digits. -/
theorem strftime_Y_m_d_length_iff (y m d : Nat) (hy : y < 10000)
    (hm : m < 100) (hd : d < 100) :
    ((strftime_Y_m_d y m d).length = 8 ↔ 1000 ≤ y) := by
  have hlen : (strftime_Y_m_d y m d).length = (natChars y).length + 4 := by
    show (natChars y ++ pad2 m ++ pad2 d).length = (natChars y).length + 4
    rw [List.length_append, List.length_append, pad2_length m hm, pad2_length d hd]
  constructor
  · intro h8
    by_contra hlt
    have := natChars_length_le_three y (by omega)
    omega
  · intro hge
    rw [hlen, natChars_length_four y hge hy]

/-- C4 (counterexample): the claim's strict reading of the date
normalizer is false on the code.  `"5-3-2024"` is not in the strict
two-digit format, yet the code parses it and returns `"20240305"`
instead of the claimed digit fallback `"532024"`; and `"05-03-0999"`
is strictly formatted and valid, yet the result `"9990305"` has seven
characters, not the claimed eight. -/
theorem parse_date_claim_counterexample :
    (strict_ddmmyyyy_spec "5-3-2024" = false ∧
      parse_date_to_yyyymmdd "5-3-2024" = "20240305" ∧
      String.mk ("5-3-2024".toList.filter isPyDigit) = "532024" ∧
      ("20240305" : String) ≠ "532024") ∧
    (strict_ddmmyyyy_spec "05-03-0999" = true ∧
      parse_date_to_yyyymmdd "05-03-0999" = "9990305" ∧
      ("9990305" : String).length ≠ 8) := by
  refine ⟨⟨by decide, by decide, by decide, by decide⟩, ⟨by decide, by decide, by decide⟩⟩

/-- C4 (amended): the normalizer never fails; whenever the code's
`%d-%m-%Y` parser accepts the input (day and month of one or two
digits with values 1-31 and 1-12 - the day's second digit and all
four year digits may be any Unicode decimal digit, the rest is
ASCII - denoting a valid calendar date with year at least 1, which
includes every strictly formatted two-digit-day, two-digit-month
valid date), the result is the decimal year followed by two-digit
month and day, an 8-character string exactly when the year is at
least 1000; on every other input the result is exactly the Unicode
decimal digit characters of the input in their original order. -/
theorem parse_date_characterization :
    (∀ (s : String) (d m y : Nat), strptime_d_m_Y s = some (d, m, y) →
      parse_date_to_yyyymmdd s = strftime_Y_m_d y m d ∧
      ((parse_date_to_yyyymmdd s).length = 8 ↔ 1000 ≤ y)) ∧
    (∀ s : String, strptime_d_m_Y s = none →
      parse_date_to_yyyymmdd s = String.mk (s.toList.filter isPyDigit)) ∧
    (∀ s : String, strict_ddmmyyyy_spec s = true →
      ∃ y m d, strptime_d_m_Y s = some (d, m, y)) ∧
    parse_date_to_yyyymmdd "05-03-2024" = "20240305" ∧
    parse_date_to_yyyymmdd "5-3-2024" = "20240305" ∧
    parse_date_to_yyyymmdd "31-12-1999" = "19991231" ∧
    parse_date_to_yyyymmdd "abc-12-xyz" = "12" ∧
    parse_date_to_yyyymmdd "1٥-03-2024" = "20240315" ∧
    parse_date_to_yyyymmdd "abc٥" = "٥" := by
  refine ⟨?_, ?_, strict_accepted, by decide, by decide, by decide, by decide,
    by decide, by decide⟩
  · intro s d m y h
    have hb := strptime_some_bounds s d m y h
    have hp : parse_date_to_yyyymmdd s = strftime_Y_m_d y m d := by
      unfold parse_date_to_yyyymmdd
      rw [h]
    refine ⟨hp, ?_⟩
    rw [hp]
    exact strftime_Y_m_d_length_iff y m d (by omega) (by omega) (by omega)
  · intro s h
    unfold parse_date_to_yyyymmdd
    rw [h]
